import Mathlib

/-!
# Verification of the hok-camp-api credential pool and cache core

Shallow embedding of the credential-pool / cache / generator-IPC core of the
`hok` package (files `hok/cache_manager.py` and `hok/camp_security.py`),
together with theorems settling the specification claims about it.

Timestamps are modelled as `Int` (the code stores `int(time.time())` in SQLite
INTEGER columns and compares with integer arithmetic); use counts as `Nat`.
The SQLite tables are modelled as Lean lists in rowid (insertion) order; the
`ORDER BY ... LIMIT 1` selections are modelled as a fold that keeps the first
best row in scan order, matching SQLite's scan behaviour on ties.
-/

/-- `CACHE_TTL_SECONDS` from `hok/cache_manager.py`. -/
def CACHE_TTL_SECONDS : Int := 3000

/-- `PARAM_REUSE_COOLDOWN_SECONDS` from `hok/cache_manager.py`. -/
def PARAM_REUSE_COOLDOWN_SECONDS : Int := 3600

/-- One row of the `param_pool` table:
`param TEXT PRIMARY KEY, use_count INTEGER DEFAULT 0, last_used_timestamp INTEGER DEFAULT 0`. -/
structure CredentialRow where
  param : String
  use_count : Nat
  last_used_timestamp : Int
deriving Repr, DecidableEq

/-- The `param_pool` table, as a list of rows in rowid (insertion) order. -/
abbrev ParamPool := List CredentialRow

/-- One row of the `api_cache` table:
`key TEXT PRIMARY KEY, value BLOB, timestamp INTEGER`. The serialized payload
is modelled as an opaque `String`; the external `orjson` dumps/loads round
trip on it is modelled as the identity. -/
structure CacheEntry where
  key : String
  value : String
  timestamp : Int
deriving Repr, DecidableEq

/-- The `api_cache` table, in insertion order. -/
abbrev ApiCache := List CacheEntry

/-- One scan step of a `SELECT ... ORDER BY ... LIMIT 1`: the current best
row is replaced only when the scanned row is strictly better. -/
def pickStep (better : CredentialRow → CredentialRow → Bool)
    (acc : Option CredentialRow) (r : CredentialRow) : Option CredentialRow :=
  match acc with
  | none => some r
  | some m => if better r m then some r else some m

/-- `SELECT ... ORDER BY ... LIMIT 1` over a scanned list of candidate rows:
fold that keeps the current best row, replacing it only when `better r m`
holds strictly, hence keeping the first best row in scan order on ties. -/
def pickMin (better : CredentialRow → CredentialRow → Bool) (rows : List CredentialRow) :
    Option CredentialRow :=
  rows.foldl (pickStep better) none

/-- Strict comparison for `ORDER BY use_count ASC, last_used_timestamp ASC`. -/
def tier1Better (a b : CredentialRow) : Bool :=
  a.use_count < b.use_count ||
    (a.use_count == b.use_count && a.last_used_timestamp < b.last_used_timestamp)

/-- Strict comparison for `ORDER BY last_used_timestamp ASC`. -/
def tier2Better (a b : CredentialRow) : Bool :=
  a.last_used_timestamp < b.last_used_timestamp

namespace CacheManager

/-- `CacheManager.get`: returns the cached value for `key` if present and
`time.time() - timestamp < CACHE_TTL_SECONDS`, else `None`. `now` is the
current time. -/
def get (now : Int) (key : String) (cache : ApiCache) : Option String :=
  match cache.find? (fun e => e.key == key) with
  | some e => if now - e.timestamp < CACHE_TTL_SECONDS then some e.value else none
  | none => none

/-- `CacheManager.set`: `REPLACE INTO api_cache (key, value, timestamp)` with
`timestamp = int(time.time())` — drops any existing row for `key` and inserts
the new one. -/
def set (now : Int) (key value : String) (cache : ApiCache) : ApiCache :=
  cache.filter (fun e => !(e.key == key)) ++ [⟨key, value, now⟩]

/-- `CacheManager.add_new_params`: `executemany` of
`INSERT OR IGNORE INTO param_pool (param, use_count, last_used_timestamp)
VALUES (?, 0, 0)` — each param is appended with counters zero unless a row
with that param already exists (primary-key conflict is ignored). -/
def add_new_params (params : List String) (pool : ParamPool) : ParamPool :=
  params.foldl (fun acc p =>
    if acc.any (fun r => r.param == p) then acc else acc ++ [⟨p, 0, 0⟩]) pool

/-- `CacheManager.get_available_param_uses_count`:
`SELECT COUNT(*) FROM param_pool WHERE use_count < 2`. -/
def get_available_param_uses_count (pool : ParamPool) : Nat :=
  (pool.filter (fun r => r.use_count < 2)).length

/-- Tier 1 of the allocation transaction:
`SELECT param FROM param_pool WHERE use_count < 2
 ORDER BY use_count ASC, last_used_timestamp ASC LIMIT 1`. -/
def tier1Select (pool : ParamPool) : Option CredentialRow :=
  pickMin tier1Better (pool.filter (fun r => r.use_count < 2))

/-- Tier 2 of the allocation transaction, with `cooldown_time = now - 3600`:
`SELECT param FROM param_pool WHERE use_count >= 2 AND last_used_timestamp < ?
 ORDER BY last_used_timestamp ASC LIMIT 1`. -/
def tier2Select (now : Int) (pool : ParamPool) : Option CredentialRow :=
  pickMin tier2Better
    (pool.filter (fun r =>
      2 ≤ r.use_count &&
        r.last_used_timestamp < now - PARAM_REUSE_COOLDOWN_SECONDS))

/-- The `UPDATE param_pool SET use_count = use_count + 1,
last_used_timestamp = ? WHERE param = ?` step of the allocation transaction. -/
def updateRow (now : Int) (p : String) (r : CredentialRow) : CredentialRow :=
  if r.param == p then
    { r with use_count := r.use_count + 1, last_used_timestamp := now }
  else r

/-- `CacheManager.get_and_update_available_param`: one atomic transaction.
Tier 1 (fresh rows), then tier 2 (cooled-down exhausted rows); if a row is
found its counter is incremented and timestamp set to `now` and its param is
returned; otherwise the transaction rolls back and `None` is returned with
the pool unchanged. -/
def get_and_update_available_param (now : Int) (pool : ParamPool) :
    Option String × ParamPool :=
  let row :=
    match tier1Select pool with
    | some r => some r
    | none => tier2Select now pool
  match row with
  | some r => (some r.param, pool.map (updateRow now r.param))
  | none => (none, pool)

end CacheManager

/-- The exception classes that `SecurityManager._fetch_new_params_from_daemon`
can raise, as Python exception kinds. `pipeClosed` is the
`RuntimeError("Daemon closed pipe unexpectedly...")` on an empty read,
`noJson` the `ValueError("Could not find JSON in daemon output...")`,
`parseFail` the `orjson.JSONDecodeError` (a `ValueError` subclass) from
`json.loads`, `startupFail` the `RuntimeError` raised by `_start_daemon`,
and `brokenPipe` / `connReset` the `BrokenPipeError` / `ConnectionResetError`
raised by the pipe write. -/
inductive DaemonErr where
  | pipeClosed
  | noJson
  | parseFail
  | startupFail
  | brokenPipe
  | connReset
deriving Repr, DecidableEq

/-- Whether an exception raised by `_fetch_new_params_from_daemon` is an
instance of `(RuntimeError, ValueError)` — the tuple caught by the `except`
clause in `SecurityManager.warm_up_pool`. `BrokenPipeError` and
`ConnectionResetError` are `OSError` subclasses and are not caught there. -/
def caughtByWarmup : DaemonErr → Bool
  | .pipeClosed => true
  | .noJson => true
  | .parseFail => true
  | .startupFail => true
  | .brokenPipe => false
  | .connReset => false

/-- The subprocess handle `SecurityManager._proc`: `alive` is
`returncode is None`. `none` models `self._proc = None`. -/
structure DaemonProc where
  alive : Bool
deriving Repr, DecidableEq

/-- Teardown side effects on the process. -/
inductive ProcAction where
  | kill
  | wait
deriving Repr, DecidableEq

/-- Scans a character list for a terminating quote, building up the literal;
a backslash escapes the following character (a simplified model of JSON
string escapes in the external `orjson` parser). -/
def parseStrBody (acc : List Char) : List Char → Option (String × List Char)
  | [] => none
  | c :: rest =>
    if c = '"' then some (String.mk acc.reverse, rest)
    else if c = '\\' then
      match rest with
      | [] => none
      | d :: rest2 => parseStrBody (d :: acc) rest2
    else parseStrBody (c :: acc) rest

/-- Drops leading JSON whitespace. -/
def skipWs : List Char → List Char
  | [] => []
  | c :: rest => if c = ' ' || c = '\t' || c = '\n' || c = '\r' then skipWs rest else c :: rest

/-- Parses the remaining elements of a JSON array of strings after the first
element, i.e. a `(',' string)* ']'` tail; `fuel` bounds the recursion. -/
def parseArrayTail (fuel : Nat) (acc : List String) (cs : List Char) :
    Option (List String) :=
  match fuel with
  | 0 => none
  | fuel + 1 =>
    match skipWs cs with
    | ']' :: rest => if skipWs rest = [] then some acc.reverse else none
    | ',' :: rest =>
      match skipWs rest with
      | '"' :: rest2 =>
        match parseStrBody [] rest2 with
        | some (s, rest3) => parseArrayTail fuel (s :: acc) rest3
        | none => none
      | _ => none
    | _ => none

/-- Models the external `orjson.loads` restricted to its use here: parsing a
JSON array of strings (the daemon's batch response). Returns `none` where
`orjson` would raise `JSONDecodeError`. -/
def json_loads_strings (s : String) : Option (List String) :=
  match skipWs s.toList with
  | '[' :: rest =>
    match skipWs rest with
    | ']' :: rest2 => if skipWs rest2 = [] then some [] else none
    | '"' :: rest2 =>
      match parseStrBody [] rest2 with
      | some (t, rest3) => parseArrayTail s.length [t] rest3
      | none => none
    | _ => none
  | _ => none

/-- `output_line.find(b'[')`: index of the first `'['` in the response line,
`none` where Python returns `-1`. -/
def find_json_start (s : String) : Option Nat :=
  s.toList.findIdx? (fun c => c = '[')

namespace SecurityManager

/-- The read-and-parse phase of `_fetch_new_params_from_daemon` (lines 84-94):
an empty readline (closed stream) raises `RuntimeError`; a line without a
`'['` raises `ValueError`; otherwise the line is parsed from the first `'['`
onward, `orjson` failures raising a `ValueError` subclass. -/
def fetch_parse (output_line : String) : Except DaemonErr (List String) :=
  if output_line = "" then .error .pipeClosed
  else
    match find_json_start output_line with
    | none => .error .noJson
    | some i =>
      match json_loads_strings (String.mk (output_line.toList.drop i)) with
      | some ps => .ok ps
      | none => .error .parseFail

/-- The `except` clause of `_fetch_new_params_from_daemon` (lines 95-100):
`self._proc.kill()` (which raises `ProcessLookupError`, swallowed, when the
process has already exited — skipping the `wait`), then `self._proc = None`.
Returns the actions performed on the process. -/
def fetch_teardown : Option DaemonProc → List ProcAction
  | none => []
  | some p => if p.alive then [.kill, .wait] else [.kill]

/-- One call of `_fetch_new_params_from_daemon` after the daemon-running
guard, driven by the response line the daemon produces: returns the result,
the process handle afterwards, and the teardown actions performed. On any
error the handle is cleared; on success it is untouched. -/
def fetch_step (proc : Option DaemonProc) (output_line : String) :
    Except DaemonErr (List String) × Option DaemonProc × List ProcAction :=
  match fetch_parse output_line with
  | .ok ps => (.ok ps, proc, [])
  | .error e => (.error e, none, fetch_teardown proc)

/-- The guard at the top of `_fetch_new_params_from_daemon` (line 76):
`if not self._proc or self._proc.returncode is not None`, i.e. the next call
starts the daemon again when the handle is cleared or the process exited. -/
def needs_restart : Option DaemonProc → Bool
  | none => true
  | some p => !p.alive

/-- Python truthiness of `if not param:` on the allocation result: `None`
and the empty string are both falsy. -/
def paramFalsy : Option String → Bool
  | none => true
  | some s => s == ""

/-- Errors surfaced by `SecurityManager.get_headers`. -/
inductive HeadersErr where
  | ipc (e : DaemonErr)
  | refillFailed
  | stillExhausted
deriving Repr, DecidableEq

/-- `SecurityManager.get_headers` (lines 149-163), driven by the outcome
`fetchRes` that `_fetch_new_params_from_daemon` would produce if called:
allocate; if the result is falsy (`if not param:`), fetch one batch
(errors propagate), raise if the batch is falsy (`if not new_params:`),
insert it, allocate once more, raise if still falsy. Returns the
`specialencodeparam` header value and the resulting pool, paired with the
number of daemon fetches performed. The random `traceparent` header is
outside the model. -/
def get_headers (now : Int) (pool : ParamPool)
    (fetchRes : Except DaemonErr (List String)) :
    Except HeadersErr (String × ParamPool) × Nat :=
  match CacheManager.get_and_update_available_param now pool with
  | (p, pool1) =>
    if paramFalsy p then
      match fetchRes with
      | .error e => (.error (.ipc e), 1)
      | .ok new_params =>
        if new_params.isEmpty then (.error .refillFailed, 1)
        else
          let pool2 := CacheManager.add_new_params new_params pool1
          match CacheManager.get_and_update_available_param now pool2 with
          | (some p2, pool3) =>
            if p2 == "" then (.error .stillExhausted, 1) else (.ok (p2, pool3), 1)
          | (none, _) => (.error .stillExhausted, 1)
    else
      match p with
      | some s => (.ok (s, pool1), 0)
      | none => (.error .stillExhausted, 0)

/-- The low-water-mark check after a successful `get_headers` (lines 165-169):
a background warm-up is triggered only when the count of fresh rows is below
`low_water_mark`, `_is_warming_up` is false, AND the daemon process handle is
present with `returncode is None`. -/
def low_water_check (pool : ParamPool) (low_water_mark : Nat)
    (is_warming_up : Bool) (proc : Option DaemonProc) : Bool :=
  decide (CacheManager.get_available_param_uses_count pool < low_water_mark) &&
    !is_warming_up &&
    (match proc with
     | some q => q.alive
     | none => false)

/-- `SecurityManager.trigger_warmup` (lines 111-115): returns whether a new
warm-up task is created — a no-op when a not-yet-done task exists. -/
def trigger_warmup (warmup_task_active : Bool) : Bool :=
  !warmup_task_active

/-- Outcome of the `while not progress.finished` loop in `warm_up_pool` on a
finite script of fetch outcomes. -/
inductive WarmUpOutcome where
  | finished (completed : Nat) (pool : ParamPool)
  | running (completed : Nat) (pool : ParamPool)
  | escaped (e : DaemonErr) (completed : Nat) (pool : ParamPool)
deriving Repr, DecidableEq

/-- The `while not progress.finished` loop of `SecurityManager.warm_up_pool`
(lines 136-144), driven by a finite script of fetch outcomes (one per
iteration; an exhausted script models the task still running, e.g. until
cancelled). A non-empty batch is inserted into the pool and advances the
progress bar by twice the batch size; an exception that is an instance of
`(RuntimeError, ValueError)` is caught, logged, backed off (the fixed
`asyncio.sleep(5)`) and the loop retries; any other exception escapes the
loop and terminates the task. -/
def warm_up_pool (pool_target : Nat) (completed : Nat) (pool : ParamPool) :
    List (Except DaemonErr (List String)) → WarmUpOutcome
  | [] =>
    if pool_target ≤ completed then .finished completed pool
    else .running completed pool
  | outcome :: script =>
    if pool_target ≤ completed then .finished completed pool
    else
      match outcome with
      | .ok new_params =>
        if new_params.isEmpty then warm_up_pool pool_target completed pool script
        else
          warm_up_pool pool_target (completed + 2 * new_params.length)
            (CacheManager.add_new_params new_params pool) script
      | .error e =>
        if caughtByWarmup e then warm_up_pool pool_target completed pool script
        else .escaped e completed pool

end SecurityManager

namespace SecurityManager

/-- The warm-up decision a `get_headers` call makes (lines 165-169 run only
when no exception was raised, on the pool state after allocation): whether
`trigger_warmup` is invoked. -/
def get_headers_triggers_warmup (now : Int) (pool : ParamPool)
    (fetchRes : Except DaemonErr (List String)) (low_water_mark : Nat)
    (is_warming_up : Bool) (proc : Option DaemonProc) : Bool :=
  match (get_headers now pool fetchRes).1 with
  | .ok (_, pool3) => low_water_check pool3 low_water_mark is_warming_up proc
  | .error _ => false

end SecurityManager

/-- The store operations that touch the `param_pool` table: `add_new_params`
(bulk insert from a generator batch) and the allocation transaction at some
time `t`. -/
inductive PoolOp where
  | add (params : List String)
  | alloc (t : Int)
deriving Repr

/-- Effect of one store operation on the `param_pool` table. -/
def applyOp (pool : ParamPool) : PoolOp → ParamPool
  | .add ps => CacheManager.add_new_params ps pool
  | .alloc t => (CacheManager.get_and_update_available_param t pool).2

/-- Effect of a sequence of store operations on the `param_pool` table. -/
def applyOps (ops : List PoolOp) (pool : ParamPool) : ParamPool :=
  ops.foldl applyOp pool

/-! ## Lemmas about the `ORDER BY ... LIMIT 1` scan -/

theorem foldl_pickStep_isSome (better : CredentialRow → CredentialRow → Bool)
    (rows : List CredentialRow) (m : CredentialRow) :
    (rows.foldl (pickStep better) (some m)).isSome := by
  induction rows generalizing m with
  | nil => rfl
  | cons x xs ih =>
    simp only [List.foldl_cons, pickStep]
    by_cases h : better x m = true
    · simp [h, ih]
    · simp [h, ih]

theorem foldl_pickStep_mem (better : CredentialRow → CredentialRow → Bool)
    (rows : List CredentialRow) (m r : CredentialRow)
    (h : rows.foldl (pickStep better) (some m) = some r) :
    r = m ∨ r ∈ rows := by
  induction rows generalizing m with
  | nil => simp only [List.foldl_nil, Option.some.injEq] at h; exact Or.inl h.symm
  | cons x xs ih =>
    simp only [List.foldl_cons, pickStep] at h
    by_cases hb : better x m = true
    · rw [if_pos hb] at h
      rcases ih x h with h1 | h1
      · exact Or.inr (h1 ▸ List.mem_cons_self x xs)
      · exact Or.inr (List.mem_cons_of_mem x h1)
    · rw [if_neg hb] at h
      rcases ih m h with h1 | h1
      · exact Or.inl h1
      · exact Or.inr (List.mem_cons_of_mem x h1)

theorem pickMin_mem (better : CredentialRow → CredentialRow → Bool)
    (rows : List CredentialRow) (r : CredentialRow)
    (h : pickMin better rows = some r) : r ∈ rows := by
  cases rows with
  | nil => simp [pickMin] at h
  | cons x xs =>
    simp only [pickMin, List.foldl_cons, pickStep] at h
    rcases foldl_pickStep_mem better xs x r h with h1 | h1
    · exact h1 ▸ List.mem_cons_self x xs
    · exact List.mem_cons_of_mem x h1

theorem pickMin_isSome (better : CredentialRow → CredentialRow → Bool)
    (rows : List CredentialRow) (h : rows ≠ []) :
    (pickMin better rows).isSome := by
  cases rows with
  | nil => exact absurd rfl h
  | cons x xs =>
    simp only [pickMin, List.foldl_cons, pickStep]
    exact foldl_pickStep_isSome better xs x

theorem foldl_pickStep_min (better : CredentialRow → CredentialRow → Bool)
    (hI : ∀ a, better a a = false)
    (hT : ∀ a c d, better a c = true → better c d = true → better a d = true)
    (hN : ∀ a c d, better a c = false → better c d = false → better a d = false)
    (rows : List CredentialRow) (m r : CredentialRow)
    (h : rows.foldl (pickStep better) (some m) = some r) :
    better m r = false ∧ ∀ q ∈ rows, better q r = false := by
  induction rows generalizing m with
  | nil =>
    simp only [List.foldl_nil, Option.some.injEq] at h
    subst h; exact ⟨hI m, by simp⟩
  | cons x xs ih =>
    simp only [List.foldl_cons, pickStep] at h
    by_cases hb : better x m = true
    · rw [if_pos hb] at h
      obtain ⟨hxr, hrest⟩ := ih x h
      constructor
      · by_contra hmr
        rw [Bool.not_eq_false] at hmr
        exact absurd (hT x m r hb hmr) (by simp [hxr])
      · intro q hq
        rcases List.mem_cons.mp hq with h1 | h1
        · exact h1 ▸ hxr
        · exact hrest q h1
    · rw [if_neg hb] at h
      rw [Bool.not_eq_true] at hb
      obtain ⟨hmr, hrest⟩ := ih m h
      refine ⟨hmr, fun q hq => ?_⟩
      rcases List.mem_cons.mp hq with h1 | h1
      · exact h1 ▸ hN x m r hb hmr
      · exact hrest q h1

theorem pickMin_min (better : CredentialRow → CredentialRow → Bool)
    (hI : ∀ a, better a a = false)
    (hT : ∀ a c d, better a c = true → better c d = true → better a d = true)
    (hN : ∀ a c d, better a c = false → better c d = false → better a d = false)
    (rows : List CredentialRow) (r : CredentialRow)
    (h : pickMin better rows = some r) :
    ∀ q ∈ rows, better q r = false := by
  cases rows with
  | nil => simp [pickMin] at h
  | cons x xs =>
    simp only [pickMin, List.foldl_cons, pickStep] at h
    obtain ⟨hxr, hrest⟩ := foldl_pickStep_min better hI hT hN xs x r h
    intro q hq
    rcases List.mem_cons.mp hq with h1 | h1
    · exact h1 ▸ hxr
    · exact hrest q h1

theorem tier1Better_iff (a b : CredentialRow) :
    tier1Better a b = true ↔
      (a.use_count < b.use_count ∨
        (a.use_count = b.use_count ∧ a.last_used_timestamp < b.last_used_timestamp)) := by
  simp [tier1Better]

theorem tier1Better_irrefl (a : CredentialRow) : tier1Better a a = false := by
  simp [tier1Better]

theorem tier1Better_trans (a c d : CredentialRow)
    (h1 : tier1Better a c = true) (h2 : tier1Better c d = true) :
    tier1Better a d = true := by
  rw [tier1Better_iff] at *
  omega

theorem tier1Better_negtrans (a c d : CredentialRow)
    (h1 : tier1Better a c = false) (h2 : tier1Better c d = false) :
    tier1Better a d = false := by
  rw [Bool.eq_false_iff, ne_eq, tier1Better_iff] at *
  omega

theorem tier2Better_iff (a b : CredentialRow) :
    tier2Better a b = true ↔ a.last_used_timestamp < b.last_used_timestamp := by
  simp [tier2Better]

theorem tier2Better_irrefl (a : CredentialRow) : tier2Better a a = false := by
  simp [tier2Better]

theorem tier2Better_trans (a c d : CredentialRow)
    (h1 : tier2Better a c = true) (h2 : tier2Better c d = true) :
    tier2Better a d = true := by
  rw [tier2Better_iff] at *
  omega

theorem tier2Better_negtrans (a c d : CredentialRow)
    (h1 : tier2Better a c = false) (h2 : tier2Better c d = false) :
    tier2Better a d = false := by
  rw [Bool.eq_false_iff, ne_eq, tier2Better_iff] at *
  omega

/-! ## Lemmas unfolding the allocation transaction -/

theorem alloc_of_tier1 (now : Int) (pool : ParamPool) (r : CredentialRow)
    (h : CacheManager.tier1Select pool = some r) :
    CacheManager.get_and_update_available_param now pool =
      (some r.param, pool.map (CacheManager.updateRow now r.param)) := by
  simp [CacheManager.get_and_update_available_param, h]

theorem alloc_of_tier2 (now : Int) (pool : ParamPool) (r : CredentialRow)
    (h1 : CacheManager.tier1Select pool = none)
    (h2 : CacheManager.tier2Select now pool = some r) :
    CacheManager.get_and_update_available_param now pool =
      (some r.param, pool.map (CacheManager.updateRow now r.param)) := by
  simp [CacheManager.get_and_update_available_param, h1, h2]

theorem alloc_of_none (now : Int) (pool : ParamPool)
    (h1 : CacheManager.tier1Select pool = none)
    (h2 : CacheManager.tier2Select now pool = none) :
    CacheManager.get_and_update_available_param now pool = (none, pool) := by
  simp [CacheManager.get_and_update_available_param, h1, h2]

theorem tier1Select_none_of_no_fresh (pool : ParamPool)
    (h : ∀ r ∈ pool, ¬ r.use_count < 2) :
    CacheManager.tier1Select pool = none := by
  have hnil : pool.filter (fun r => r.use_count < 2) = [] :=
    List.filter_eq_nil_iff.mpr (fun r hr => by simpa using h r hr)
  simp [CacheManager.tier1Select, hnil, pickMin]

theorem tier2Select_none_of_no_cooled (now : Int) (pool : ParamPool)
    (h : ∀ r ∈ pool,
      ¬(2 ≤ r.use_count ∧ r.last_used_timestamp < now - PARAM_REUSE_COOLDOWN_SECONDS)) :
    CacheManager.tier2Select now pool = none := by
  have hnil : pool.filter (fun r =>
      2 ≤ r.use_count &&
        r.last_used_timestamp < now - PARAM_REUSE_COOLDOWN_SECONDS) = [] :=
    List.filter_eq_nil_iff.mpr (fun r hr => by simpa using h r hr)
  simp [CacheManager.tier2Select, hnil, pickMin]

/-- CLAIM C1. If the pool contains at least one fresh row (`useCount < 2`),
`allocate()` returns the param of a fresh row that is minimal with respect to
`(useCount ascending, lastUsedAt ascending)` among all fresh rows — hence a
fresh row is always preferred to every exhausted row, regardless of insertion
order or cooldown status. In particular, from `{A: (0,0), B: (1, t-10)}` at
`t = 1000` it returns `A` and sets `A.useCount = 1`, `A.lastUsedAt = t`. -/
theorem allocate_prefers_fresh_rows :
    (∀ (t : Int) (pool : ParamPool), (∃ r ∈ pool, r.use_count < 2) →
      ∃ r ∈ pool, r.use_count < 2 ∧
        CacheManager.get_and_update_available_param t pool =
          (some r.param, pool.map (CacheManager.updateRow t r.param)) ∧
        ∀ q ∈ pool, q.use_count < 2 →
          r.use_count ≤ q.use_count ∧
            (r.use_count = q.use_count →
              r.last_used_timestamp ≤ q.last_used_timestamp)) ∧
    CacheManager.get_and_update_available_param 1000 [⟨"A", 0, 0⟩, ⟨"B", 1, 990⟩] =
      (some "A", [⟨"A", 1, 1000⟩, ⟨"B", 1, 990⟩]) := by
  constructor
  · intro t pool ⟨r0, hr0mem, hr0⟩
    have hne : pool.filter (fun r => r.use_count < 2) ≠ [] := by
      intro hnil
      have := List.filter_eq_nil_iff.mp hnil r0 hr0mem
      simp [hr0] at this
    obtain ⟨r, hr⟩ := Option.isSome_iff_exists.mp (pickMin_isSome tier1Better _ hne)
    have hr' : CacheManager.tier1Select pool = some r := hr
    have hmem := pickMin_mem tier1Better _ r hr
    rw [List.mem_filter] at hmem
    obtain ⟨hrpool, hfresh⟩ := hmem
    have hfresh' : r.use_count < 2 := by simpa using hfresh
    have hmin := pickMin_min tier1Better tier1Better_irrefl tier1Better_trans
      tier1Better_negtrans _ r hr
    refine ⟨r, hrpool, hfresh', alloc_of_tier1 t pool r hr', ?_⟩
    intro q hq hqfresh
    have hq' := hmin q (List.mem_filter.mpr ⟨hq, by simpa⟩)
    rw [Bool.eq_false_iff, ne_eq, tier1Better_iff] at hq'
    omega
  · decide

/-- CLAIM C2, counterexample. At `t = 3600` with the pool holding only
`{C: (2, 0)}`, the row satisfies `t - lastUsedAt = 3600 ≥ COOLDOWN`, so the
claim requires `allocate()` to return it; the code's tier-2 filter
`last_used_timestamp < now - 3600` is strict and returns absent. -/
theorem allocate_cooldown_counterexample :
    CacheManager.get_and_update_available_param 3600 [⟨"C", 2, 0⟩] =
      (none, [⟨"C", 2, 0⟩]) ∧
    2 ≤ (⟨"C", 2, 0⟩ : CredentialRow).use_count ∧
    (3600 : Int) - (⟨"C", 2, 0⟩ : CredentialRow).last_used_timestamp ≥
      PARAM_REUSE_COOLDOWN_SECONDS := by
  refine ⟨?_, by decide, by decide⟩
  decide

/-- CLAIM C2, amended: the boundary is strict. When the pool contains no
fresh row, `allocate()` at time `t` returns a row iff some row satisfies
`t - lastUsedAt > COOLDOWN` (strictly, i.e. `lastUsedAt < t - 3600`); it then
returns the eligible row with smallest `lastUsedAt`, increments its
`useCount` past 2 (not capped) and sets `lastUsedAt = t`; and on any pool a
row with `useCount ≥ 2` is only returned when `t - lastUsedAt > COOLDOWN`.
In particular with `{C: (2, t-7200)}` at `t = 10000`, it returns `C` with
`useCount = 3`, `lastUsedAt = t`. -/
theorem allocate_cooldown_amended :
    (∀ (t : Int) (pool : ParamPool), (∀ r ∈ pool, ¬ r.use_count < 2) →
      (((CacheManager.get_and_update_available_param t pool).1.isSome ↔
          ∃ r ∈ pool, t - r.last_used_timestamp > PARAM_REUSE_COOLDOWN_SECONDS) ∧
        ∀ p pool2,
          CacheManager.get_and_update_available_param t pool = (some p, pool2) →
          ∃ r ∈ pool, r.param = p ∧ 2 ≤ r.use_count ∧
            t - r.last_used_timestamp > PARAM_REUSE_COOLDOWN_SECONDS ∧
            (∀ q ∈ pool,
              t - q.last_used_timestamp > PARAM_REUSE_COOLDOWN_SECONDS →
              r.last_used_timestamp ≤ q.last_used_timestamp) ∧
            pool2 = pool.map (CacheManager.updateRow t p))) ∧
    (∀ (t : Int) (pool : ParamPool) (p : String) (pool2 : ParamPool),
      CacheManager.get_and_update_available_param t pool = (some p, pool2) →
      ∃ r ∈ pool, r.param = p ∧
        (r.use_count < 2 ∨
          t - r.last_used_timestamp > PARAM_REUSE_COOLDOWN_SECONDS)) ∧
    CacheManager.get_and_update_available_param 10000 [⟨"C", 2, 2800⟩] =
      (some "C", [⟨"C", 3, 10000⟩]) := by
  refine ⟨?_, ?_, by decide⟩
  · intro t pool hnofresh
    have ht1 : CacheManager.tier1Select pool = none :=
      tier1Select_none_of_no_fresh pool hnofresh
    constructor
    · constructor
      · intro hsome
        cases ht2 : CacheManager.tier2Select t pool with
        | none => simp [alloc_of_none t pool ht1 ht2] at hsome
        | some r =>
          have hmem := pickMin_mem tier2Better _ r ht2
          rw [List.mem_filter] at hmem
          obtain ⟨hrpool, hpred⟩ := hmem
          simp only [Bool.and_eq_true, decide_eq_true_eq] at hpred
          exact ⟨r, hrpool, by omega⟩
      · intro ⟨r, hrpool, hcool⟩
        have hrf : r ∈ pool.filter (fun r =>
            2 ≤ r.use_count &&
              r.last_used_timestamp < t - PARAM_REUSE_COOLDOWN_SECONDS) := by
          rw [List.mem_filter]
          refine ⟨hrpool, ?_⟩
          have := hnofresh r hrpool
          simp only [Bool.and_eq_true, decide_eq_true_eq]
          omega
        have hne := List.ne_nil_of_mem hrf
        obtain ⟨r', hr'⟩ := Option.isSome_iff_exists.mp (pickMin_isSome tier2Better _ hne)
        have hr'' : CacheManager.tier2Select t pool = some r' := hr'
        simp [alloc_of_tier2 t pool r' ht1 hr'']
    · intro p pool2 halloc
      cases ht2 : CacheManager.tier2Select t pool with
      | none => simp [alloc_of_none t pool ht1 ht2] at halloc
      | some r =>
        rw [alloc_of_tier2 t pool r ht1 ht2] at halloc
        obtain ⟨hp, hpool2⟩ := Prod.mk.injEq .. ▸ halloc
        cases hp
        have hmem := pickMin_mem tier2Better _ r ht2
        rw [List.mem_filter] at hmem
        obtain ⟨hrpool, hpred⟩ := hmem
        simp only [Bool.and_eq_true, decide_eq_true_eq] at hpred
        have hmin := pickMin_min tier2Better tier2Better_irrefl tier2Better_trans
          tier2Better_negtrans _ r ht2
        refine ⟨r, hrpool, rfl, hpred.1, by omega, ?_, hpool2.symm ▸ rfl⟩
        intro q hq hqcool
        have hqf : q ∈ pool.filter (fun r =>
            2 ≤ r.use_count &&
              r.last_used_timestamp < t - PARAM_REUSE_COOLDOWN_SECONDS) := by
          rw [List.mem_filter]
          have := hnofresh q hq
          simp only [Bool.and_eq_true, decide_eq_true_eq]
          exact ⟨hq, by omega⟩
        have := hmin q hqf
        rw [Bool.eq_false_iff, ne_eq, tier2Better_iff] at this
        omega
  · intro t pool p pool2 halloc
    cases ht1 : CacheManager.tier1Select pool with
    | some r =>
      rw [alloc_of_tier1 t pool r ht1] at halloc
      obtain ⟨hp, _⟩ := Prod.mk.injEq .. ▸ halloc
      cases hp
      have hmem := pickMin_mem tier1Better _ r ht1
      rw [List.mem_filter] at hmem
      exact ⟨r, hmem.1, rfl, Or.inl (by simpa using hmem.2)⟩
    | none =>
      cases ht2 : CacheManager.tier2Select t pool with
      | none => simp [alloc_of_none t pool ht1 ht2] at halloc
      | some r =>
        rw [alloc_of_tier2 t pool r ht1 ht2] at halloc
        obtain ⟨hp, _⟩ := Prod.mk.injEq .. ▸ halloc
        cases hp
        have hmem := pickMin_mem tier2Better _ r ht2
        rw [List.mem_filter] at hmem
        obtain ⟨hrpool, hpred⟩ := hmem
        simp only [Bool.and_eq_true, decide_eq_true_eq] at hpred
        exact ⟨r, hrpool, rfl, Or.inr (by omega)⟩

/-- CLAIM C3. If the pool has no fresh row and no cooled-down exhausted row,
`allocate()` returns absent and leaves every row of the store unchanged (the
transaction rolls back without mutation); in particular with only
`{D: (2, t-10)}` at `t = 10000` it returns absent. -/
theorem allocate_exhausted_rollback :
    (∀ (t : Int) (pool : ParamPool),
      (∀ r ∈ pool, ¬ r.use_count < 2) →
      (∀ r ∈ pool,
        ¬(2 ≤ r.use_count ∧
          r.last_used_timestamp < t - PARAM_REUSE_COOLDOWN_SECONDS)) →
      CacheManager.get_and_update_available_param t pool = (none, pool)) ∧
    CacheManager.get_and_update_available_param 10000 [⟨"D", 2, 9990⟩] =
      (none, [⟨"D", 2, 9990⟩]) := by
  refine ⟨?_, by decide⟩
  intro t pool hnofresh hnocool
  exact alloc_of_none t pool (tier1Select_none_of_no_fresh pool hnofresh)
    (tier2Select_none_of_no_cooled t pool hnocool)

/-- `add_new_params` only ever appends rows with zero counters: the existing
rows survive unchanged as a prefix. -/
theorem add_new_params_append (ps : List String) (pool : ParamPool) :
    ∃ suffix, CacheManager.add_new_params ps pool = pool ++ suffix ∧
      ∀ r ∈ suffix, r.use_count = 0 ∧ r.last_used_timestamp = 0 := by
  induction ps generalizing pool with
  | nil => exact ⟨[], by simp [CacheManager.add_new_params], by simp⟩
  | cons p ps ih =>
    simp only [CacheManager.add_new_params, List.foldl_cons]
    by_cases h : pool.any (fun r => r.param == p)
    · rw [if_pos h]
      exact ih pool
    · rw [if_neg h]
      obtain ⟨suffix, heq, hsuf⟩ := ih (pool ++ [⟨p, 0, 0⟩])
      refine ⟨⟨p, 0, 0⟩ :: suffix, ?_, ?_⟩
      · rw [CacheManager.add_new_params] at heq
        rw [heq, List.append_assoc]
        rfl
      · intro r hr
        rcases List.mem_cons.mp hr with h1 | h1
        · subst h1; exact ⟨rfl, rfl⟩
        · exact hsuf r h1

/-- The allocation transaction either rolls back leaving the pool unchanged,
or returns some param and rewrites each row through `updateRow`. -/
theorem alloc_shape (t : Int) (pool : ParamPool) :
    (CacheManager.get_and_update_available_param t pool).2 = pool ∨
      ∃ p, (CacheManager.get_and_update_available_param t pool).1 = some p ∧
        (CacheManager.get_and_update_available_param t pool).2 =
          pool.map (CacheManager.updateRow t p) := by
  cases ht1 : CacheManager.tier1Select pool with
  | some r => right; exact ⟨r.param, by rw [alloc_of_tier1 t pool r ht1]; exact ⟨rfl, rfl⟩⟩
  | none =>
    cases ht2 : CacheManager.tier2Select t pool with
    | none => left; rw [alloc_of_none t pool ht1 ht2]
    | some r => right; exact ⟨r.param, by rw [alloc_of_tier2 t pool r ht1 ht2]; exact ⟨rfl, rfl⟩⟩

/-- `updateRow` preserves the param and never decreases the counter. -/
theorem updateRow_mono (t : Int) (p : String) (r : CredentialRow) :
    (CacheManager.updateRow t p r).param = r.param ∧
      r.use_count ≤ (CacheManager.updateRow t p r).use_count := by
  unfold CacheManager.updateRow
  by_cases h : r.param == p
  · rw [if_pos h]; exact ⟨rfl, Nat.le_succ _⟩
  · rw [if_neg h]; exact ⟨rfl, Nat.le_refl _⟩

/-- Each single store operation carries every row to a row with the same
param and a use count at least as large. -/
theorem applyOp_mono (pool : ParamPool) (op : PoolOp) (r : CredentialRow)
    (hr : r ∈ pool) :
    ∃ s ∈ applyOp pool op, s.param = r.param ∧ r.use_count ≤ s.use_count := by
  cases op with
  | add ps =>
    obtain ⟨suffix, heq, _⟩ := add_new_params_append ps pool
    exact ⟨r, by simp [applyOp, heq, hr], rfl, Nat.le_refl _⟩
  | alloc t =>
    rcases alloc_shape t pool with h | ⟨p, _, h⟩
    · exact ⟨r, by simp [applyOp, h, hr], rfl, Nat.le_refl _⟩
    · refine ⟨CacheManager.updateRow t p r, ?_, ?_, ?_⟩
      · simp only [applyOp, h]
        exact List.mem_map_of_mem _ hr
      · exact (updateRow_mono t p r).1
      · exact (updateRow_mono t p r).2

/-- CLAIM C4. `useCount` starts at 0 on insertion and is monotonically
non-decreasing across every sequence of store operations: `add_new_params`
never touches existing rows (it appends, with counters zero), and the
allocation transaction either leaves the pool unchanged or increments by
exactly one the count of exactly the row(s) whose param it returns. -/
theorem use_count_monotone :
    (∀ (ps : List String) (pool : ParamPool),
      ∃ suffix, CacheManager.add_new_params ps pool = pool ++ suffix ∧
        ∀ r ∈ suffix, r.use_count = 0 ∧ r.last_used_timestamp = 0) ∧
    (∀ (t : Int) (pool : ParamPool),
      (CacheManager.get_and_update_available_param t pool).2 = pool ∨
        ∃ p, (CacheManager.get_and_update_available_param t pool).1 = some p ∧
          (CacheManager.get_and_update_available_param t pool).2 =
            pool.map (CacheManager.updateRow t p)) ∧
    (∀ (t : Int) (p : String) (r : CredentialRow),
      (CacheManager.updateRow t p r =
          { r with use_count := r.use_count + 1, last_used_timestamp := t } ∧
        r.param = p) ∨
      (CacheManager.updateRow t p r = r ∧ r.param ≠ p)) ∧
    (∀ (ops : List PoolOp) (pool : ParamPool) (r : CredentialRow), r ∈ pool →
      ∃ s ∈ applyOps ops pool, s.param = r.param ∧ r.use_count ≤ s.use_count) := by
  refine ⟨add_new_params_append, fun t pool => alloc_shape t pool, ?_, ?_⟩
  · intro t p r
    unfold CacheManager.updateRow
    by_cases h : r.param == p
    · rw [if_pos h]; exact Or.inl ⟨rfl, by simpa using h⟩
    · rw [if_neg h]; exact Or.inr ⟨rfl, by simpa using h⟩
  · intro ops
    induction ops with
    | nil => intro pool r hr; exact ⟨r, by simpa [applyOps] using hr, rfl, Nat.le_refl _⟩
    | cons op ops ih =>
      intro pool r hr
      obtain ⟨s, hsmem, hsp, hsc⟩ := applyOp_mono pool op r hr
      obtain ⟨u, humem, hup, huc⟩ := ih (applyOp pool op) s hsmem
      exact ⟨u, by simpa [applyOps] using humem, hup.trans hsp, hsc.trans huc⟩

/-- CLAIM C4, witness: concrete instance of the monotonicity statement. -/
theorem use_count_monotone_witness :
    ∃ s ∈ applyOps [PoolOp.alloc 50, PoolOp.add ["B"]] [⟨"A", 1, 0⟩],
      s.param = "A" ∧ 1 ≤ s.use_count :=
  use_count_monotone.2.2.2 [PoolOp.alloc 50, PoolOp.add ["B"]] [⟨"A", 1, 0⟩]
    ⟨"A", 1, 0⟩ (by simp)

/-- CLAIM C1, witness: the general preference statement applied to the
scenario pool `{A: (0,0), B: (1, 990)}` at `t = 1000`. -/
theorem allocate_prefers_fresh_rows_witness :
    ∃ r ∈ ([⟨"A", 0, 0⟩, ⟨"B", 1, 990⟩] : ParamPool), r.use_count < 2 ∧
      CacheManager.get_and_update_available_param 1000 [⟨"A", 0, 0⟩, ⟨"B", 1, 990⟩] =
        (some r.param,
          List.map (CacheManager.updateRow 1000 r.param)
            [⟨"A", 0, 0⟩, ⟨"B", 1, 990⟩]) ∧
      ∀ q ∈ ([⟨"A", 0, 0⟩, ⟨"B", 1, 990⟩] : ParamPool), q.use_count < 2 →
        r.use_count ≤ q.use_count ∧
          (r.use_count = q.use_count →
            r.last_used_timestamp ≤ q.last_used_timestamp) :=
  allocate_prefers_fresh_rows.1 1000 [⟨"A", 0, 0⟩, ⟨"B", 1, 990⟩]
    ⟨⟨"A", 0, 0⟩, by simp, by decide⟩

/-- CLAIM C2, witness: the amended cooldown statement applied to the
scenario pool `{C: (2, 2800)}` at `t = 10000`. -/
theorem allocate_cooldown_amended_witness :
    ((CacheManager.get_and_update_available_param 10000 [⟨"C", 2, 2800⟩]).1.isSome ↔
      ∃ r ∈ ([⟨"C", 2, 2800⟩] : ParamPool),
        10000 - r.last_used_timestamp > PARAM_REUSE_COOLDOWN_SECONDS) ∧
    ∀ p pool2,
      CacheManager.get_and_update_available_param 10000 [⟨"C", 2, 2800⟩] = (some p, pool2) →
      ∃ r ∈ ([⟨"C", 2, 2800⟩] : ParamPool), r.param = p ∧ 2 ≤ r.use_count ∧
        10000 - r.last_used_timestamp > PARAM_REUSE_COOLDOWN_SECONDS ∧
        (∀ q ∈ ([⟨"C", 2, 2800⟩] : ParamPool),
          10000 - q.last_used_timestamp > PARAM_REUSE_COOLDOWN_SECONDS →
          r.last_used_timestamp ≤ q.last_used_timestamp) ∧
        pool2 = List.map (CacheManager.updateRow 10000 p) [⟨"C", 2, 2800⟩] :=
  allocate_cooldown_amended.1 10000 [⟨"C", 2, 2800⟩] (by decide)

/-- CLAIM C3, witness: the rollback statement applied to the scenario pool
`{D: (2, 9990)}` at `t = 10000`. -/
theorem allocate_exhausted_rollback_witness :
    CacheManager.get_and_update_available_param 10000 [⟨"D", 2, 9990⟩] =
      (none, [⟨"D", 2, 9990⟩]) :=
  allocate_exhausted_rollback.1 10000 [⟨"D", 2, 9990⟩] (by decide) (by decide)

/-- A param present in the pool is still present after `add_new_params`. -/
theorem add_new_params_any_mono (ps : List String) (pool : ParamPool) (q : String)
    (h : pool.any (fun r => r.param == q) = true) :
    (CacheManager.add_new_params ps pool).any (fun r => r.param == q) = true := by
  obtain ⟨suffix, heq, _⟩ := add_new_params_append ps pool
  rw [heq, List.any_append, h, Bool.true_or]

/-- Every param of the batch is present after `add_new_params`. -/
theorem add_new_params_mem (ps : List String) (pool : ParamPool) (p : String)
    (h : p ∈ ps) :
    (CacheManager.add_new_params ps pool).any (fun r => r.param == p) = true := by
  induction ps generalizing pool with
  | nil => cases h
  | cons q qs ih =>
    simp only [CacheManager.add_new_params, List.foldl_cons]
    rcases List.mem_cons.mp h with h1 | h1
    · subst h1
      by_cases hq : pool.any (fun r => r.param == p) = true
      · rw [if_pos hq]
        exact add_new_params_any_mono qs pool p hq
      · rw [if_neg hq]
        refine add_new_params_any_mono qs (pool ++ [⟨p, 0, 0⟩]) p ?_
        simp
    · by_cases hq : pool.any (fun r => r.param == q) = true
      · rw [if_pos hq]; exact ih pool h1
      · rw [if_neg hq]; exact ih (pool ++ [⟨q, 0, 0⟩]) h1

/-- `add_new_params` is the identity when every param of the batch is
already present. -/
theorem add_new_params_all_present (ps : List String) (pool : ParamPool)
    (h : ∀ p ∈ ps, pool.any (fun r => r.param == p) = true) :
    CacheManager.add_new_params ps pool = pool := by
  induction ps with
  | nil => rfl
  | cons q qs ih =>
    simp only [CacheManager.add_new_params, List.foldl_cons]
    rw [if_pos (h q (List.mem_cons_self q qs))]
    exact ih (fun p hp => h p (List.mem_cons_of_mem q hp))

/-- CLAIM C5. `add_new_params` is idempotent: a second insertion of the same
batch is the identity; a param already present keeps exactly its original
rows (hence its original `useCount` and `lastUsedAt`, and exactly one row
since `param` is the primary key); a param not yet present is inserted with
`useCount = 0`, `lastUsedAt = 0`. -/
theorem add_new_params_idempotent :
    (∀ (ps : List String) (pool : ParamPool),
      CacheManager.add_new_params ps (CacheManager.add_new_params ps pool) =
        CacheManager.add_new_params ps pool) ∧
    (∀ (ps : List String) (pool : ParamPool) (p : String),
      (∃ r ∈ pool, r.param = p) →
      (CacheManager.add_new_params ps pool).filter (fun r => r.param == p) =
        pool.filter (fun r => r.param == p)) ∧
    (∀ (ps : List String) (pool : ParamPool) (p : String),
      p ∈ ps → (∀ r ∈ pool, r.param ≠ p) →
      ∃ r ∈ CacheManager.add_new_params ps pool,
        r.param = p ∧ r.use_count = 0 ∧ r.last_used_timestamp = 0) := by
  refine ⟨?_, ?_, ?_⟩
  · intro ps pool
    refine add_new_params_all_present ps _ (fun p hp => ?_)
    exact add_new_params_mem ps pool p hp
  · intro ps pool p hpres
    induction ps generalizing pool with
    | nil => rfl
    | cons q qs ih =>
      simp only [CacheManager.add_new_params, List.foldl_cons]
      by_cases hq : pool.any (fun r => r.param == q) = true
      · rw [if_pos hq]
        exact ih pool hpres
      · rw [if_neg hq]
        obtain ⟨r, hrmem, hrp⟩ := hpres
        have hqp : q ≠ p := by
          intro hqp
          subst hqp
          exact hq (List.any_eq_true.mpr ⟨r, hrmem, by simp [hrp]⟩)
        have hpres2 : ∃ s ∈ pool ++ [⟨q, 0, 0⟩], s.param = p :=
          ⟨r, List.mem_append_left _ hrmem, hrp⟩
        have := ih (pool ++ [⟨q, 0, 0⟩]) hpres2
        rw [CacheManager.add_new_params] at this
        rw [this, List.filter_append]
        simp [hqp]
  · intro ps pool p hp habs
    have hany := add_new_params_mem ps pool p hp
    obtain ⟨r, hrmem, hrp⟩ := List.any_eq_true.mp hany
    have hrp' : r.param = p := by simpa using hrp
    obtain ⟨suffix, heq, hsuf⟩ := add_new_params_append ps pool
    rcases List.mem_append.mp (heq ▸ hrmem) with h1 | h1
    · exact absurd hrp' (habs r h1)
    · exact ⟨r, hrmem, hrp', (hsuf r h1).1, (hsuf r h1).2⟩

/-- CLAIM C5, witness: inserting `["x", "y"]` over a pool already holding
`x` leaves the `x` row untouched and creates the `y` row with zero
counters. -/
theorem add_new_params_idempotent_witness :
    (CacheManager.add_new_params ["x", "y"] [⟨"x", 1, 5⟩]).filter
        (fun r => r.param == "x") =
      List.filter (fun r => r.param == "x") [⟨"x", 1, 5⟩] ∧
    ∃ r ∈ CacheManager.add_new_params ["x", "y"] [⟨"x", 1, 5⟩],
      r.param = "y" ∧ r.use_count = 0 ∧ r.last_used_timestamp = 0 :=
  ⟨add_new_params_idempotent.2.1 ["x", "y"] [⟨"x", 1, 5⟩] "x"
      ⟨⟨"x", 1, 5⟩, by simp, rfl⟩,
    add_new_params_idempotent.2.2 ["x", "y"] [⟨"x", 1, 5⟩] "y" (by simp)
      (by decide)⟩

/-- CLAIM C6. Cache round-trip: after `set(k, v)` at time `t`, `get(k)` at
time `now` returns `v` exactly while `now - t < CACHE_TTL_SECONDS` (3000s)
and absent once the TTL has elapsed — the same absent as a key that was
never stored. -/
theorem cache_round_trip :
    (∀ (cache : ApiCache) (k v : String) (t now : Int),
      CacheManager.get now k (CacheManager.set t k v cache) =
        if now - t < CACHE_TTL_SECONDS then some v else none) ∧
    (∀ (now : Int) (k : String), CacheManager.get now k [] = none) := by
  constructor
  · intro cache k v t now
    have hfind : (CacheManager.set t k v cache).find? (fun e => e.key == k) =
        some ⟨k, v, t⟩ := by
      rw [CacheManager.set, List.find?_append]
      have hnone : (cache.filter (fun e => !(e.key == k))).find?
          (fun e => e.key == k) = none := by
        rw [List.find?_eq_none]
        intro e he
        have := (List.mem_filter.mp he).2
        simp at this
        simp [this]
      rw [hnone]
      simp [List.find?]
    rw [CacheManager.get, hfind]
  · intro now k
    rfl

/-- CLAIM C7, counterexample. With the pool holding `{"": (0, 0)}` (an
empty-string credential), `allocate()` returns the present value `some ""`,
but `get_headers` does not return it: Python's `if not param:` treats the
empty string as absent, so it requests a generator batch (fetch count 1) and
returns the retried credential instead. -/
theorem get_headers_counterexample :
    (CacheManager.get_and_update_available_param 0 [⟨"", 0, 0⟩]).1 = some "" ∧
    SecurityManager.get_headers 0 [⟨"", 0, 0⟩] (.ok ["x"]) =
      (.ok ("x", [⟨"", 1, 0⟩, ⟨"x", 1, 0⟩]), 1) := by
  constructor
  · decide
  · rfl

/-- CLAIM C7, amended: `get_headers` returns the `allocate()` result when it
is present and non-empty, performing no generator fetch; when the result is
absent or the empty string (both falsy to `if not param:`), it synchronously
requests exactly one generator batch, propagates a fetch error, raises a
fatal error on an empty batch, otherwise inserts the batch via
`add_new_params` and retries `allocate()` exactly once, raising a fatal
error if the retry is again falsy; and it never returns success without a
non-empty credential. -/
theorem get_headers_amended :
    (∀ (t : Int) (pool : ParamPool) (fetchRes : Except DaemonErr (List String))
        (p : String) (pool1 : ParamPool),
      CacheManager.get_and_update_available_param t pool = (some p, pool1) →
      p ≠ "" →
      SecurityManager.get_headers t pool fetchRes = (.ok (p, pool1), 0)) ∧
    (∀ (t : Int) (pool : ParamPool) (fetchRes : Except DaemonErr (List String)),
      SecurityManager.paramFalsy
          (CacheManager.get_and_update_available_param t pool).1 = true →
      (SecurityManager.get_headers t pool fetchRes).2 = 1 ∧
      (∀ e, fetchRes = .error e →
        (SecurityManager.get_headers t pool fetchRes).1 = .error (.ipc e)) ∧
      (fetchRes = .ok [] →
        (SecurityManager.get_headers t pool fetchRes).1 = .error .refillFailed) ∧
      (∀ ps, fetchRes = .ok ps → ps ≠ [] →
        ((∃ p2 pool3,
            CacheManager.get_and_update_available_param t
              (CacheManager.add_new_params ps
                (CacheManager.get_and_update_available_param t pool).2) =
              (some p2, pool3) ∧
            p2 ≠ "" ∧
            (SecurityManager.get_headers t pool fetchRes).1 = .ok (p2, pool3)) ∨
          (SecurityManager.paramFalsy
              (CacheManager.get_and_update_available_param t
                (CacheManager.add_new_params ps
                  (CacheManager.get_and_update_available_param t pool).2)).1 =
              true ∧
            (SecurityManager.get_headers t pool fetchRes).1 =
              .error .stillExhausted)))) ∧
    (∀ (t : Int) (pool : ParamPool) (fetchRes : Except DaemonErr (List String))
        (p : String) (pool3 : ParamPool) (n : Nat),
      SecurityManager.get_headers t pool fetchRes = (.ok (p, pool3), n) →
      p ≠ "") := by
  refine ⟨?_, ?_, ?_⟩
  · intro t pool fetchRes p pool1 h hp
    have hb : (p == "") = false := beq_eq_false_iff_ne.mpr hp
    simp [SecurityManager.get_headers, h, SecurityManager.paramFalsy, hb]
  · intro t pool fetchRes hfalsy
    rcases h : CacheManager.get_and_update_available_param t pool with ⟨p0, pool1⟩
    rw [h] at hfalsy
    simp only at hfalsy
    cases fetchRes with
    | error e =>
      refine ⟨?_, ?_, ?_, ?_⟩
      · simp [SecurityManager.get_headers, h, hfalsy]
      · intro e' he'
        cases he'
        simp [SecurityManager.get_headers, h, hfalsy]
      · intro habs; cases habs
      · intro ps hps; cases hps
    | ok ps =>
      by_cases hemp : ps = []
      · subst hemp
        refine ⟨?_, ?_, ?_, ?_⟩
        · simp [SecurityManager.get_headers, h, hfalsy]
        · intro e' he'; cases he'
        · intro _
          simp [SecurityManager.get_headers, h, hfalsy]
        · intro ps' hps' habs
          cases hps'
          exact absurd rfl habs
      · have hemp' : ps.isEmpty = false := by
          cases ps with
          | nil => exact absurd rfl hemp
          | cons a l => rfl
        rcases h2 : CacheManager.get_and_update_available_param t
            (CacheManager.add_new_params ps pool1) with ⟨p2, pool3⟩
        refine ⟨?_, ?_, ?_, ?_⟩
        · cases p2 with
          | none => simp [SecurityManager.get_headers, h, hfalsy, hemp', h2]
          | some s =>
            by_cases hs : (s == "") = true
            · simp [SecurityManager.get_headers, h, hfalsy, hemp', h2, hs]
            · simp only [Bool.not_eq_true] at hs
              simp [SecurityManager.get_headers, h, hfalsy, hemp', h2, hs]
        · intro e' he'; cases he'
        · intro habs; cases habs; exact absurd rfl hemp
        · intro ps' hps' _
          cases hps'
          have hsnd : ((p0, pool1) : Option String × ParamPool).2 = pool1 := rfl
          simp only [hsnd]
          cases p2 with
          | none =>
            right
            rw [h2]
            exact ⟨rfl, by simp [SecurityManager.get_headers, h, hfalsy, hemp', h2]⟩
          | some s =>
            by_cases hs : (s == "") = true
            · right
              rw [h2]
              refine ⟨by simpa [SecurityManager.paramFalsy] using hs, ?_⟩
              simp [SecurityManager.get_headers, h, hfalsy, hemp', h2, hs]
            · left
              refine ⟨s, pool3, h2, by simpa using hs, ?_⟩
              simp only [Bool.not_eq_true] at hs
              simp [SecurityManager.get_headers, h, hfalsy, hemp', h2, hs]
  · intro t pool fetchRes p pool3 n hok
    rcases h : CacheManager.get_and_update_available_param t pool with ⟨p0, pool1⟩
    by_cases hfalsy : SecurityManager.paramFalsy p0 = true
    · cases fetchRes with
      | error e => simp [SecurityManager.get_headers, h, hfalsy] at hok
      | ok ps =>
        by_cases hemp : ps.isEmpty = true
        · simp [SecurityManager.get_headers, h, hfalsy, hemp] at hok
        · simp only [Bool.not_eq_true] at hemp
          rcases h2 : CacheManager.get_and_update_available_param t
              (CacheManager.add_new_params ps pool1) with ⟨p2, pool3'⟩
          cases p2 with
          | none => simp [SecurityManager.get_headers, h, hfalsy, hemp, h2] at hok
          | some s =>
            by_cases hs : (s == "") = true
            · simp [SecurityManager.get_headers, h, hfalsy, hemp, h2, hs] at hok
            · simp only [Bool.not_eq_true] at hs
              simp [SecurityManager.get_headers, h, hfalsy, hemp, h2, hs] at hok
              obtain ⟨⟨hp, _⟩, _⟩ := hok
              subst hp
              simpa using hs
    · simp only [Bool.not_eq_true] at hfalsy
      cases p0 with
      | none => simp [SecurityManager.paramFalsy] at hfalsy
      | some s =>
        simp only [SecurityManager.paramFalsy] at hfalsy
        simp [SecurityManager.get_headers, h, SecurityManager.paramFalsy, hfalsy] at hok
        obtain ⟨⟨hp, _⟩, _⟩ := hok
        subst hp
        simpa using hfalsy

/-- CLAIM C7, witness: a fresh non-empty credential in the pool is returned
directly with no generator fetch. -/
theorem get_headers_amended_witness :
    SecurityManager.get_headers 1000 [⟨"A", 0, 0⟩] (.error .brokenPipe) =
      (.ok ("A", [⟨"A", 1, 1000⟩]), 0) :=
  get_headers_amended.1 1000 [⟨"A", 0, 0⟩] (.error .brokenPipe) "A"
    [⟨"A", 1, 1000⟩] (by decide) (by decide)

/-- CLAIM C8, counterexample. A `BrokenPipeError` raised while requesting a
batch is a generator/IPC failure, yet the warm-up loop terminates on it: the
`except (RuntimeError, ValueError)` clause does not catch `BrokenPipeError`
(an `OSError` subclass), so the error escapes the loop instead of being
retried. -/
theorem warm_up_counterexample :
    caughtByWarmup .brokenPipe = false ∧
    SecurityManager.warm_up_pool 100 0 [] [.error .brokenPipe] =
      .escaped .brokenPipe 0 [] := by
  exact ⟨rfl, rfl⟩

/-- CLAIM C8, amended: for every failure of `RuntimeError` or `ValueError`
class raised during a batch request (closed stream, missing JSON marker,
malformed output, daemon startup failure) the warm-up loop backs off (the
fixed `asyncio.sleep(5)`) and retries instead of terminating, continuing
until cancelled or the pool target is reached; but `BrokenPipeError` and
`ConnectionResetError` raised by the pipe write escape the loop and
terminate the warm-up task. -/
theorem warm_up_amended :
    (∀ (target completed : Nat) (pool : ParamPool)
        (script : List (Except DaemonErr (List String))),
      (∀ e, Except.error e ∈ script → caughtByWarmup e = true) →
      (∃ c p, SecurityManager.warm_up_pool target completed pool script =
          .finished c p ∧ target ≤ c) ∨
        (∃ c p, SecurityManager.warm_up_pool target completed pool script =
          .running c p)) ∧
    (∀ (target completed : Nat) (pool : ParamPool) (e : DaemonErr)
        (script : List (Except DaemonErr (List String))),
      caughtByWarmup e = true → ¬ target ≤ completed →
      SecurityManager.warm_up_pool target completed pool (.error e :: script) =
        SecurityManager.warm_up_pool target completed pool script) ∧
    (∀ (target completed : Nat) (pool : ParamPool) (e : DaemonErr)
        (script : List (Except DaemonErr (List String))),
      caughtByWarmup e = false → ¬ target ≤ completed →
      SecurityManager.warm_up_pool target completed pool (.error e :: script) =
        .escaped e completed pool) := by
  refine ⟨?_, ?_, ?_⟩
  · intro target completed pool script
    induction script generalizing completed pool with
    | nil =>
      intro _
      by_cases h : target ≤ completed
      · exact Or.inl ⟨completed, pool, by simp [SecurityManager.warm_up_pool, h], h⟩
      · exact Or.inr ⟨completed, pool, by simp [SecurityManager.warm_up_pool, h]⟩
    | cons o rest ih =>
      intro hcaught
      by_cases h : target ≤ completed
      · exact Or.inl ⟨completed, pool, by
          cases o <;> simp [SecurityManager.warm_up_pool, h], h⟩
      · have hrest : ∀ e, Except.error e ∈ rest → caughtByWarmup e = true :=
          fun e he => hcaught e (List.mem_cons_of_mem o he)
        cases o with
        | ok ps =>
          by_cases hemp : ps.isEmpty = true
          · have := ih completed pool hrest
            rcases this with ⟨c, p, heq, hc⟩ | ⟨c, p, heq⟩
            · exact Or.inl ⟨c, p, by simp [SecurityManager.warm_up_pool, h, hemp, heq], hc⟩
            · exact Or.inr ⟨c, p, by simp [SecurityManager.warm_up_pool, h, hemp, heq]⟩
          · have hemp' : ps.isEmpty = false := by simpa using hemp
            have := ih (completed + 2 * ps.length)
              (CacheManager.add_new_params ps pool) hrest
            rcases this with ⟨c, p, heq, hc⟩ | ⟨c, p, heq⟩
            · exact Or.inl ⟨c, p, by simp [SecurityManager.warm_up_pool, h, hemp', heq], hc⟩
            · exact Or.inr ⟨c, p, by simp [SecurityManager.warm_up_pool, h, hemp', heq]⟩
        | error e =>
          have hce : caughtByWarmup e = true := hcaught e (List.mem_cons_self _ _)
          have := ih completed pool hrest
          rcases this with ⟨c, p, heq, hc⟩ | ⟨c, p, heq⟩
          · exact Or.inl ⟨c, p, by simp [SecurityManager.warm_up_pool, h, hce, heq], hc⟩
          · exact Or.inr ⟨c, p, by simp [SecurityManager.warm_up_pool, h, hce, heq]⟩
  · intro target completed pool e script hce h
    simp [SecurityManager.warm_up_pool, h, hce]
  · intro target completed pool e script hce h
    simp [SecurityManager.warm_up_pool, h, hce]

/-- CLAIM C8, witness: a script whose only error is a caught `ValueError`
(missing JSON marker) retries and reaches the target. -/
theorem warm_up_amended_witness :
    (∃ c p, SecurityManager.warm_up_pool 4 0 []
        [.ok ["a"], .error .noJson, .ok ["b"]] = .finished c p ∧ 4 ≤ c) ∨
      (∃ c p, SecurityManager.warm_up_pool 4 0 []
        [.ok ["a"], .error .noJson, .ok ["b"]] = .running c p) :=
  warm_up_amended.1 4 0 [] [.ok ["a"], .error .noJson, .ok ["b"]]
    (by
      intro e he
      simp only [List.mem_cons, List.not_mem_nil, or_false] at he
      rcases he with h1 | h1 | h1 <;> (cases h1 <;> rfl))

/-- CLAIM C9, counterexample. A successful `get_headers` call that leaves
only 1 fresh use in the pool (below the default low-water mark of 20), with
no warm-up in flight, does not trigger a warm-up when the daemon process
handle is `None`: the code additionally requires
`self._proc and self._proc.returncode is None`. -/
theorem warmup_trigger_counterexample :
    (SecurityManager.get_headers 1000 [⟨"A", 0, 0⟩] (.error .brokenPipe)).1 =
      .ok ("A", [⟨"A", 1, 1000⟩]) ∧
    CacheManager.get_available_param_uses_count [⟨"A", 1, 1000⟩] < 20 ∧
    SecurityManager.get_headers_triggers_warmup 1000 [⟨"A", 0, 0⟩]
      (.error .brokenPipe) 20 false none = false := by
  exact ⟨rfl, by decide, rfl⟩

/-- CLAIM C9, amended: after a successful `get_headers` call, a background
warm-up is triggered exactly when `countAvailable()` on the post-allocation
pool is below the low-water mark, no warm-up is in flight, and the daemon
process handle is present with the process still running; `trigger_warmup`
itself creates a task only when no previous warm-up task is still active. -/
theorem warmup_trigger_amended :
    (∀ (pool : ParamPool) (lwm : Nat) (w : Bool) (proc : Option DaemonProc),
      SecurityManager.low_water_check pool lwm w proc = true ↔
        (CacheManager.get_available_param_uses_count pool < lwm ∧ w = false ∧
          ∃ q, proc = some q ∧ q.alive = true)) ∧
    (∀ (now : Int) (pool : ParamPool) (fetchRes : Except DaemonErr (List String))
        (lwm : Nat) (w : Bool) (proc : Option DaemonProc),
      SecurityManager.get_headers_triggers_warmup now pool fetchRes lwm w proc =
          true ↔
        ∃ p pool3 n,
          SecurityManager.get_headers now pool fetchRes = (.ok (p, pool3), n) ∧
            SecurityManager.low_water_check pool3 lwm w proc = true) ∧
    (∀ active : Bool, SecurityManager.trigger_warmup active = true ↔ active = false) := by
  refine ⟨?_, ?_, ?_⟩
  · intro pool lwm w proc
    cases proc with
    | none => simp [SecurityManager.low_water_check]
    | some q => simp [SecurityManager.low_water_check, and_assoc]
  · intro now pool fetchRes lwm w proc
    rcases hres : SecurityManager.get_headers now pool fetchRes with ⟨res, n⟩
    cases res with
    | error e =>
      simp only [SecurityManager.get_headers_triggers_warmup, hres]
      constructor
      · intro hfalse; cases hfalse
      · intro ⟨p, pool3, n', heq, _⟩
        cases heq
    | ok v =>
      rcases v with ⟨p, pool3⟩
      simp only [SecurityManager.get_headers_triggers_warmup, hres]
      constructor
      · intro hl
        exact ⟨p, pool3, n, rfl, hl⟩
      · intro ⟨p', pool3', n', heq, hl⟩
        simp only [Prod.mk.injEq, Except.ok.injEq] at heq
        obtain ⟨⟨hp, hpool⟩, hn⟩ := heq
        subst hpool
        exact hl
  · intro active
    cases active <;> simp [SecurityManager.trigger_warmup]

/-- CLAIM C9, witness: with the daemon running, a successful call on a
low pool with no warm-up in flight does trigger the warm-up. -/
theorem warmup_trigger_amended_witness :
    SecurityManager.low_water_check [⟨"A", 1, 1000⟩] 20 false (some ⟨true⟩) = true ↔
      (CacheManager.get_available_param_uses_count [⟨"A", 1, 1000⟩] < 20 ∧
        false = false ∧ ∃ q, (some ⟨true⟩ : Option DaemonProc) = some q ∧
          q.alive = true) :=
  warmup_trigger_amended.1 [⟨"A", 1, 1000⟩] 20 false (some ⟨true⟩)

/-- CLAIM C10. When the batch request's pipe read returns an empty line
(closed stream) the protocol raises an IPC error (`RuntimeError`, surfaced
to the caller), and when the response line contains no `'['` start-of-array
marker it raises a `ValueError`; in both cases the process handle is torn
down — killed and awaited if still alive — and cleared to `None`, so the
daemon-running guard of the next batch request restarts the process before
retrying. -/
theorem fetch_ipc_failure_teardown :
    (∀ (proc : Option DaemonProc) (line : String),
      line = "" →
        SecurityManager.fetch_step proc line =
          (.error .pipeClosed, none, SecurityManager.fetch_teardown proc)) ∧
    (∀ (proc : Option DaemonProc) (line : String),
      line ≠ "" → find_json_start line = none →
        SecurityManager.fetch_step proc line =
          (.error .noJson, none, SecurityManager.fetch_teardown proc)) ∧
    (∀ q : DaemonProc, q.alive = true →
      SecurityManager.fetch_teardown (some q) = [.kill, .wait]) ∧
    SecurityManager.needs_restart none = true := by
  refine ⟨?_, ?_, ?_, rfl⟩
  · intro proc line hline
    subst hline
    rfl
  · intro proc line hline hfind
    simp [SecurityManager.fetch_step, SecurityManager.fetch_parse, hline, hfind]
  · intro q hq
    simp [SecurityManager.fetch_teardown, hq]

/-- CLAIM C10, witness: an empty read against a live process handle raises
the IPC error, kills and awaits the process, and clears the handle, which
the restart guard then recognises. -/
theorem fetch_ipc_failure_teardown_witness :
    SecurityManager.fetch_step (some ⟨true⟩) "" =
      (.error .pipeClosed, none, [.kill, .wait]) ∧
    SecurityManager.fetch_step (some ⟨true⟩) "no marker" =
      (.error .noJson, none, [.kill, .wait]) ∧
    SecurityManager.needs_restart none = true :=
  ⟨fetch_ipc_failure_teardown.1 (some ⟨true⟩) "" rfl,
    fetch_ipc_failure_teardown.2.1 (some ⟨true⟩) "no marker" (by decide) (by decide),
    fetch_ipc_failure_teardown.2.2.2⟩
